import Mathlib

/-!
Shallow embedding of the `poe` pallet (src/src/hasher.rs, src/src/merkle.rs,
src/src/lib.rs).

The pallet is generic over a hash function (`Trait::TreeHash`, any 32-byte
`Digest` implementation such as Blake2s in the tests).  We model the hash as an
explicit parameter `H : List Nat → List Nat` mapping a preimage byte sequence
to a digest byte sequence; digests are byte lists compared by full equality, as
`TreeHashOut: Eq` is in the source.  Hashing a composite value concatenates the
components' bytes in order, exactly as the `Hashable` impls for `[T; 32]` and
pairs in hasher.rs feed the bytes of each component to the hasher in order, so
`hash(&(a, b)) = H (a ++ b)` and `hash(&d) = H d` for digests `a b d`.
-/

/-- A digest: a byte sequence compared by full equality
(`TreeHashOut = [u8; 32]` in the test instantiation). -/
abbrev Digest := List Nat

/-- `Hashed<T, H, O>` from hasher.rs: a digest remembering (at the type level in
Rust, erased here) what it is a hash of.  Carries only its `hash` field. -/
structure Hashed where
  hash : Digest
deriving DecidableEq, Repr

/-- `MerkleRoot<T, H, O>` from merkle.rs: a digest interpreted as a Merkle
root.  Carries only its `hash` field. -/
structure MerkleRoot where
  hash : Digest
deriving DecidableEq, Repr

/-- `ProofElement<O>` from merkle.rs. -/
inductive ProofElement where
  | Left (h : Digest)
  | Right (h : Digest)
deriving DecidableEq, Repr

/-- `ProofElement::merge` from merkle.rs: concatenate self with sibling in the
proper order and return the hash.  `Left(h)` hashes the pair `(h, sibling)`,
`Right(h)` hashes `(sibling, h)`; hashing a pair of digests concatenates their
bytes. -/
def ProofElement.merge (H : List Nat → List Nat) : ProofElement → Digest → Digest
  | .Left h, sibling => H (h ++ sibling)
  | .Right h, sibling => H (sibling ++ h)

/-- `verify_proof` from merkle.rs: double-hash the leaf digest, fold the proof
elements over it with `merge`, and compare the result to the root's digest. -/
def verify_proof (H : List Nat → List Nat) (root : MerkleRoot)
    (proof : List ProofElement) (leaf : Hashed) : Bool :=
  let leaf_doublehash := H leaf.hash
  let expected_root := proof.foldl (fun leaf pe => pe.merge H leaf) leaf_doublehash
  expected_root = root.hash

/-- Modelled from the spec (§4.2, algorithm steps 1–2), for comparison with
`verify_proof`: start from `accumulator = Hash(leaf_digest)` and fold over the
proof in order, `Left(sibling)` yielding `Hash(sibling, accumulator)` and
`Right(sibling)` yielding `Hash(accumulator, sibling)`. -/
def spec_fold (H : List Nat → List Nat) (leaf_digest : Digest)
    (proof : List ProofElement) : Digest :=
  proof.foldl
    (fun accumulator e =>
      match e with
      | .Left sibling => H (sibling ++ accumulator)
      | .Right sibling => H (accumulator ++ sibling))
    (H leaf_digest)

/-- Claim C1: `verify_proof root proof leaf` returns true iff folding over
`proof` in order, starting from the double-hashed leaf digest, with
`Left(sibling)` producing `Hash(sibling, accumulator)` and `Right(sibling)`
producing `Hash(accumulator, sibling)`, yields the root's digest; in
particular, for the empty proof it returns true iff the root's digest equals
the hash of the leaf's digest. -/
theorem verify_proof_correct (H : List Nat → List Nat) (root : MerkleRoot)
    (proof : List ProofElement) (leaf : Hashed) :
    (verify_proof H root proof leaf = true ↔ spec_fold H leaf.hash proof = root.hash)
    ∧ (verify_proof H root [] leaf = true ↔ root.hash = H leaf.hash) := by
  constructor
  · have hfold : ∀ (l : List ProofElement) (a : Digest),
        l.foldl (fun leaf pe => pe.merge H leaf) a
          = l.foldl
            (fun accumulator e =>
              match e with
              | .Left sibling => H (sibling ++ accumulator)
              | .Right sibling => H (accumulator ++ sibling)) a := by
      intro l
      induction l with
      | nil => intro a; rfl
      | cons e t ih =>
        intro a
        cases e <;> simpa [List.foldl, ProofElement.merge] using ih _
    simp [verify_proof, spec_fold, hfold]
  · simp [verify_proof, eq_comm]

/-- `Revokable<T>` from lib.rs. -/
inductive Revokable (T : Type) where
  | NotRevoked (t : T)
  | Revoked
deriving DecidableEq, Repr

/-- The dispatch errors of lib.rs, under the names the spec gives their
messages: `alreadyAnchored` = "The root has already been anchored.",
`alreadyRevoked` = "anchor already revoked", `invalidProof` = "invalid proof",
`suspensionNotExtended` = "leaf is already suspended until specified time". -/
inductive Err where
  | alreadyAnchored
  | alreadyRevoked
  | invalidProof
  | suspensionNotExtended
deriving DecidableEq, Repr

/-- Account identifiers (`T::AccountId`, `u64` in the test runtime). -/
abbrev AccountId := Nat

/-- The two storage maps of `decl_storage!` in lib.rs: `Anchors`, keyed by
(administrators root, document root), and `SuspendedLeaves`, keyed by
(administrators root, leaf digest) with a `UnixTimeSeconds` (u64) value. -/
structure PoeState where
  anchors : MerkleRoot × MerkleRoot → Option (Revokable Nat)
  suspendedLeaves : MerkleRoot × Hashed → Option Nat

/-- The empty genesis storage: both maps hold no records. -/
def initState : PoeState where
  anchors := fun _ => none
  suspendedLeaves := fun _ => none

/-- `create_anchor` from lib.rs: fails if a record already exists at
`(admins, root)`, otherwise inserts `NotRevoked(block_number)`. -/
def create_anchor (s : PoeState) (admins : MerkleRoot) (root : MerkleRoot)
    (block_number : Nat) : Except Err PoeState :=
  let key := (admins, root)
  if (s.anchors key).isSome then .error .alreadyAnchored
  else
    .ok { s with
          anchors := fun k => if k = key then some (.NotRevoked block_number) else s.anchors k }

/-- `revoke_anchor` from lib.rs: first fails if the record at `(admins, root)`
is already `Revoked`; then verifies the sender's membership proof against
`admins` (`account_id_hash` is the `Trait` hook turning the sender into a
digest), failing if invalid; otherwise inserts `Revoked`. -/
def revoke_anchor (H : List Nat → List Nat) (account_id_hash : AccountId → Hashed)
    (s : PoeState) (sender : AccountId) (admins : MerkleRoot) (root : MerkleRoot)
    (proof : List ProofElement) : Except Err PoeState :=
  let key := (admins, root)
  if s.anchors key = some .Revoked then .error .alreadyRevoked
  else
    let valid := verify_proof H admins proof (account_id_hash sender)
    if valid then
      .ok { s with anchors := fun k => if k = key then some .Revoked else s.anchors k }
    else .error .invalidProof

/-- `suspend_leaf` from lib.rs: if a suspension record exists at
`(admins, leaf)`, the new `suspend_end` must be strictly greater than the
stored value; then the sender's membership proof is verified against `admins`;
on success the record is overwritten with `suspend_end`. -/
def suspend_leaf (H : List Nat → List Nat) (account_id_hash : AccountId → Hashed)
    (s : PoeState) (sender : AccountId) (proof : List ProofElement)
    (admins : MerkleRoot) (leaf : Hashed) (suspend_end : Nat) : Except Err PoeState :=
  let key := (admins, leaf)
  let proceed : Except Err PoeState :=
    let valid := verify_proof H admins proof (account_id_hash sender)
    if valid then
      .ok { s with
            suspendedLeaves := fun k => if k = key then some suspend_end else s.suspendedLeaves k }
    else .error .invalidProof
  match s.suspendedLeaves key with
  | some curr_end => if suspend_end > curr_end then proceed else .error .suspensionNotExtended
  | none => proceed

/-- `lookup_anchor` from lib.rs: read the anchor record. -/
def lookup_anchor (s : PoeState) (auths : MerkleRoot) (root : MerkleRoot) :
    Option (Revokable Nat) :=
  s.anchors (auths, root)

/-- `leaf_suspended_by` from lib.rs (the spec's `is_suspended`): true iff a
suspension record exists at `(auths, leaf)` and `now <= suspension_end`. -/
def leaf_suspended_by (s : PoeState) (auths : MerkleRoot) (leaf : Hashed)
    (now : Nat) : Bool :=
  match s.suspendedLeaves (auths, leaf) with
  | none => false
  | some suspension_end => now ≤ suspension_end

/-- One dispatched call to the module. -/
inductive Call where
  | createAnchor (admins root : MerkleRoot) (blockNumber : Nat)
  | revokeAnchor (sender : AccountId) (admins root : MerkleRoot) (proof : List ProofElement)
  | suspendLeaf (sender : AccountId) (proof : List ProofElement) (admins : MerkleRoot)
      (leaf : Hashed) (suspendEnd : Nat)

/-- Dispatch a call to the corresponding extrinsic. -/
def callResult (H : List Nat → List Nat) (account_id_hash : AccountId → Hashed)
    (s : PoeState) : Call → Except Err PoeState
  | .createAnchor admins root blockNumber => create_anchor s admins root blockNumber
  | .revokeAnchor sender admins root proof =>
      revoke_anchor H account_id_hash s sender admins root proof
  | .suspendLeaf sender proof admins leaf suspendEnd =>
      suspend_leaf H account_id_hash s sender proof admins leaf suspendEnd

/-- The state after a call: a failed call leaves the storage as it was (in the
source every `ensure!` returns before any `insert` executes). -/
def applyCall (H : List Nat → List Nat) (account_id_hash : AccountId → Hashed)
    (s : PoeState) (c : Call) : PoeState :=
  match callResult H account_id_hash s c with
  | .ok s2 => s2
  | .error _ => s

/-- The state after a sequence of calls, applied in order. -/
def applyCalls (H : List Nat → List Nat) (account_id_hash : AccountId → Hashed)
    (s : PoeState) (cs : List Call) : PoeState :=
  cs.foldl (applyCall H account_id_hash) s

/-- A concrete instantiation of the hash parameter, used to evaluate the
theorems on explicit inputs (the pallet is generic over `Trait::TreeHash`; the
repository's tests instantiate it with Blake2s).  `testHash` prefixes the
preimage with its length, so it is injective and never returns the all-zero
32-byte digest. -/
def testHash (l : List Nat) : List Nat := l.length :: l

/-- A concrete instantiation of the `Trait::account_id_hash` hook: hash the
account id. -/
def testAccountHash (a : AccountId) : Hashed := ⟨testHash [a]⟩

theorem testHash_injective : ∀ a b : List Nat, testHash a = testHash b → a = b := by
  intro a b h
  exact (List.cons.injEq _ _ _ _ ▸ h).2

/-- A concrete store holding one `Revoked` anchor and one suspension record. -/
def cexState : PoeState where
  anchors := fun k => if k = (⟨[3]⟩, ⟨[4]⟩) then some .Revoked else none
  suspendedLeaves := fun k => if k = (⟨[3]⟩, ⟨[5]⟩) then some 5 else none

/-- Claim C2 counterexample: with an invalid proof (the empty proof does not
verify account 0 against the root `[3]`), `revoke_anchor` on an
already-`Revoked` record fails with `AlreadyRevoked`, not `InvalidProof`, and
`suspend_leaf` with a non-extending timestamp on an existing record fails with
`SuspensionNotExtended`, not `InvalidProof`: the record checks run before the
proof is verified. -/
theorem revoke_error_precedence_cex :
    verify_proof testHash (⟨[3]⟩ : MerkleRoot) [] (testAccountHash 0) = false
    ∧ revoke_anchor testHash testAccountHash cexState 0 ⟨[3]⟩ ⟨[4]⟩ [] = .error .alreadyRevoked
    ∧ suspend_leaf testHash testAccountHash cexState 0 [] ⟨[3]⟩ ⟨[5]⟩ 3
        = .error .suspensionNotExtended := by
  refine ⟨by decide, rfl, rfl⟩

/-- Claim C2 (amended): for every state and every call whose Merkle membership
proof does not verify the caller's identity digest against `admins`,
`revoke_anchor` and `suspend_leaf` fail; the error is `InvalidProof` unless an
earlier record check already fails — `revoke_anchor` returns `AlreadyRevoked`
when the targeted record is already `Revoked`, and `suspend_leaf` returns
`SuspensionNotExtended` when a record exists whose stored timestamp is not
strictly smaller than the requested one. -/
theorem invalid_proof_errors (H : List Nat → List Nat)
    (account_id_hash : AccountId → Hashed) (s : PoeState) (sender : AccountId)
    (admins root : MerkleRoot) (leaf : Hashed) (proof : List ProofElement)
    (suspend_end : Nat)
    (hv : verify_proof H admins proof (account_id_hash sender) = false) :
    revoke_anchor H account_id_hash s sender admins root proof
      = .error (if s.anchors (admins, root) = some .Revoked then .alreadyRevoked
                else .invalidProof)
    ∧ suspend_leaf H account_id_hash s sender proof admins leaf suspend_end
      = .error (match s.suspendedLeaves (admins, leaf) with
                | some curr_end =>
                    if suspend_end > curr_end then Err.invalidProof
                    else Err.suspensionNotExtended
                | none => Err.invalidProof) := by
  constructor
  · by_cases hr : s.anchors (admins, root) = some .Revoked
    · simp [revoke_anchor, hr]
    · simp [revoke_anchor, hr, hv]
  · cases hsl : s.suspendedLeaves (admins, leaf) with
    | none => simp [suspend_leaf, hsl, hv]
    | some curr_end =>
      by_cases hgt : suspend_end > curr_end <;> simp [suspend_leaf, hsl, hv, hgt]

/-- Closed instance of `invalid_proof_errors` on the empty store: with no
record present, both operations fail with `InvalidProof`. -/
theorem invalid_proof_errors_witness :
    verify_proof testHash (⟨[3]⟩ : MerkleRoot) [] (testAccountHash 0) = false
    ∧ revoke_anchor testHash testAccountHash initState 0 ⟨[3]⟩ ⟨[4]⟩ []
        = .error .invalidProof
    ∧ suspend_leaf testHash testAccountHash initState 0 [] ⟨[3]⟩ ⟨[5]⟩ 3
        = .error .invalidProof := by
  refine ⟨by decide, ?_, ?_⟩
  · exact (invalid_proof_errors testHash testAccountHash initState 0 ⟨[3]⟩ ⟨[4]⟩ ⟨[5]⟩ [] 3
      (by decide)).1
  · exact (invalid_proof_errors testHash testAccountHash initState 0 ⟨[3]⟩ ⟨[4]⟩ ⟨[5]⟩ [] 3
      (by decide)).2

/-- Claim C3: when the membership proof verifies, `revoke_anchor` succeeds even
with no record at `(admins, root)`, inserting `Revoked`; afterwards every
`create_anchor` on that key fails with `AlreadyAnchored`. -/
theorem revoke_before_create (H : List Nat → List Nat)
    (account_id_hash : AccountId → Hashed) (s : PoeState) (sender : AccountId)
    (admins root : MerkleRoot) (proof : List ProofElement)
    (habs : s.anchors (admins, root) = none)
    (hv : verify_proof H admins proof (account_id_hash sender) = true) :
    ∃ s2, revoke_anchor H account_id_hash s sender admins root proof = .ok s2
      ∧ s2.anchors (admins, root) = some .Revoked
      ∧ ∀ block_number, create_anchor s2 admins root block_number
          = .error .alreadyAnchored := by
  refine ⟨{ s with anchors := fun k => if k = (admins, root) then some .Revoked
                                       else s.anchors k }, ?_, ?_, ?_⟩
  · unfold revoke_anchor
    simp [habs, hv]
  · simp
  · intro block_number
    unfold create_anchor
    simp

/-- Closed instance of `revoke_before_create`: account 0's digest is
`testHash [0] = [1, 0]`, so the singleton administrator root is
`testHash [1, 0] = [2, 1, 0]` and the empty proof verifies. -/
theorem revoke_before_create_witness :
    initState.anchors (⟨[2, 1, 0]⟩, ⟨[4]⟩) = none
    ∧ verify_proof testHash ⟨[2, 1, 0]⟩ [] (testAccountHash 0) = true
    ∧ ∃ s2, revoke_anchor testHash testAccountHash initState 0 ⟨[2, 1, 0]⟩ ⟨[4]⟩ [] = .ok s2
        ∧ s2.anchors (⟨[2, 1, 0]⟩, ⟨[4]⟩) = some .Revoked
        ∧ ∀ block_number, create_anchor s2 ⟨[2, 1, 0]⟩ ⟨[4]⟩ block_number
            = .error .alreadyAnchored :=
  ⟨rfl, by decide,
    revoke_before_create testHash testAccountHash initState 0 ⟨[2, 1, 0]⟩ ⟨[4]⟩ []
      rfl (by decide)⟩

/-- Characterization of a successful `suspend_leaf`: it stores `suspend_end` at
`(admins, leaf)`, touches no other suspension record and no anchor, strictly
extends any previously stored timestamp, and its proof verified. -/
theorem suspend_leaf_ok (H : List Nat → List Nat) (account_id_hash : AccountId → Hashed)
    (s : PoeState) (sender : AccountId) (proof : List ProofElement)
    (admins : MerkleRoot) (leaf : Hashed) (suspend_end : Nat) (s2 : PoeState)
    (h : suspend_leaf H account_id_hash s sender proof admins leaf suspend_end = .ok s2) :
    s2.suspendedLeaves (admins, leaf) = some suspend_end
    ∧ (∀ k, k ≠ (admins, leaf) → s2.suspendedLeaves k = s.suspendedLeaves k)
    ∧ s2.anchors = s.anchors
    ∧ (∀ curr, s.suspendedLeaves (admins, leaf) = some curr → curr < suspend_end)
    ∧ verify_proof H admins proof (account_id_hash sender) = true := by
  simp only [suspend_leaf] at h
  split at h
  case _ curr_end heq =>
    split at h
    case isTrue hgt =>
      split at h
      case isTrue hv =>
        cases h
        refine ⟨by simp, fun k hk => by simp [hk], rfl, ?_, hv⟩
        intro curr hcurr
        rw [heq] at hcurr
        cases hcurr
        exact hgt
      case isFalse hv => cases h
    case isFalse hgt => cases h
  case _ heq =>
    split at h
    case isTrue hv =>
      cases h
      refine ⟨by simp, fun k hk => by simp [hk], rfl, ?_, hv⟩
      intro curr hcurr
      rw [heq] at hcurr
      cases hcurr
    case isFalse hv => cases h

/-- Claim C6: `leaf_suspended_by` (the spec's `is_suspended`) is a pure read —
in this embedding a `Bool`-valued function of the state that cannot error —
returning true iff a suspension record exists for `(auths, leaf)` and
`now <= stored suspend_until` (inclusive bound); in particular after a
successful suspension until 10 it is true at `now = 10` and false at
`now = 11`. -/
theorem leaf_suspended_by_correct (s : PoeState) (auths : MerkleRoot)
    (leaf : Hashed) (now : Nat) :
    (leaf_suspended_by s auths leaf now = true
      ↔ ∃ e, s.suspendedLeaves (auths, leaf) = some e ∧ now ≤ e)
    ∧ (∀ (H : List Nat → List Nat) (account_id_hash : AccountId → Hashed)
         (sender : AccountId) (proof : List ProofElement) (s2 : PoeState),
        suspend_leaf H account_id_hash s sender proof auths leaf 10 = .ok s2 →
        leaf_suspended_by s2 auths leaf 10 = true
          ∧ leaf_suspended_by s2 auths leaf 11 = false) := by
  constructor
  · unfold leaf_suspended_by
    cases hsl : s.suspendedLeaves (auths, leaf) with
    | none => simp
    | some e => simp
  · intro H account_id_hash sender proof s2 h
    have hst := (suspend_leaf_ok H account_id_hash s sender proof auths leaf 10 s2 h).1
    constructor
    · simp [leaf_suspended_by, hst]
    · simp [leaf_suspended_by, hst]

/-- Closed instance of `leaf_suspended_by_correct`: suspending leaf `[9]` until
10 from the empty store makes it suspended at 10 and not at 11. -/
theorem leaf_suspended_by_correct_witness :
    (leaf_suspended_by initState ⟨[2, 1, 0]⟩ ⟨[9]⟩ 3 = true
      ↔ ∃ e, initState.suspendedLeaves (⟨[2, 1, 0]⟩, ⟨[9]⟩) = some e ∧ 3 ≤ e)
    ∧ leaf_suspended_by (applyCall testHash testAccountHash initState
          (.suspendLeaf 0 [] ⟨[2, 1, 0]⟩ ⟨[9]⟩ 10)) ⟨[2, 1, 0]⟩ ⟨[9]⟩ 10 = true
    ∧ leaf_suspended_by (applyCall testHash testAccountHash initState
          (.suspendLeaf 0 [] ⟨[2, 1, 0]⟩ ⟨[9]⟩ 10)) ⟨[2, 1, 0]⟩ ⟨[9]⟩ 11 = false :=
  ⟨(leaf_suspended_by_correct initState ⟨[2, 1, 0]⟩ ⟨[9]⟩ 3).1,
   ((leaf_suspended_by_correct initState ⟨[2, 1, 0]⟩ ⟨[9]⟩ 3).2
     testHash testAccountHash 0 [] _ rfl).1,
   ((leaf_suspended_by_correct initState ⟨[2, 1, 0]⟩ ⟨[9]⟩ 3).2
     testHash testAccountHash 0 [] _ rfl).2⟩

/-- Claim C9: a failing call — any of the three extrinsics returning any error
— leaves both storage maps exactly as they were: in the source every `ensure!`
returns before any `insert` executes, so the error paths write nothing. -/
theorem failure_preserves_state (H : List Nat → List Nat)
    (account_id_hash : AccountId → Hashed) (s : PoeState) (c : Call) (e : Err)
    (h : callResult H account_id_hash s c = .error e) :
    ∀ ka ks, (applyCall H account_id_hash s c).anchors ka = s.anchors ka
      ∧ (applyCall H account_id_hash s c).suspendedLeaves ks = s.suspendedLeaves ks := by
  intro ka ks
  unfold applyCall
  rw [h]
  exact ⟨rfl, rfl⟩

/-- Closed instance of `failure_preserves_state`: `create_anchor` on an
occupied key fails and changes neither map. -/
theorem failure_preserves_state_witness :
    callResult testHash testAccountHash cexState (.createAnchor ⟨[3]⟩ ⟨[4]⟩ 7)
      = .error .alreadyAnchored
    ∧ ((applyCall testHash testAccountHash cexState
          (.createAnchor ⟨[3]⟩ ⟨[4]⟩ 7)).anchors (⟨[3]⟩, ⟨[4]⟩)
          = cexState.anchors (⟨[3]⟩, ⟨[4]⟩)
       ∧ (applyCall testHash testAccountHash cexState
          (.createAnchor ⟨[3]⟩ ⟨[4]⟩ 7)).suspendedLeaves (⟨[3]⟩, ⟨[5]⟩)
          = cexState.suspendedLeaves (⟨[3]⟩, ⟨[5]⟩)) :=
  ⟨rfl, failure_preserves_state testHash testAccountHash cexState
      (.createAnchor ⟨[3]⟩ ⟨[4]⟩ 7) .alreadyAnchored rfl (⟨[3]⟩, ⟨[4]⟩) (⟨[3]⟩, ⟨[5]⟩)⟩

/-- Claim C10: `suspend_leaf` places no lower bound on `suspend_end` relative
to the current time: with no existing record and a verifying proof it succeeds
for every `suspend_end` (including 0 and past timestamps), stores it, and
`leaf_suspended_by` at any strictly later `now` returns false. -/
theorem suspend_no_lower_bound (H : List Nat → List Nat)
    (account_id_hash : AccountId → Hashed) (s : PoeState) (sender : AccountId)
    (proof : List ProofElement) (admins : MerkleRoot) (leaf : Hashed)
    (suspend_end : Nat)
    (habs : s.suspendedLeaves (admins, leaf) = none)
    (hv : verify_proof H admins proof (account_id_hash sender) = true) :
    ∃ s2, suspend_leaf H account_id_hash s sender proof admins leaf suspend_end = .ok s2
      ∧ s2.suspendedLeaves (admins, leaf) = some suspend_end
      ∧ ∀ now, suspend_end < now → leaf_suspended_by s2 admins leaf now = false := by
  refine ⟨{ s with suspendedLeaves := fun k => if k = (admins, leaf) then some suspend_end
                                               else s.suspendedLeaves k }, ?_, by simp, ?_⟩
  · simp [suspend_leaf, habs, hv]
  · intro now hnow
    simp [leaf_suspended_by]
    omega

/-- Closed instance of `suspend_no_lower_bound`: suspending until 0 succeeds on
the empty store and the leaf is not suspended at `now = 1`. -/
theorem suspend_no_lower_bound_witness :
    initState.suspendedLeaves (⟨[2, 1, 0]⟩, ⟨[9]⟩) = none
    ∧ verify_proof testHash ⟨[2, 1, 0]⟩ [] (testAccountHash 0) = true
    ∧ ∃ s2, suspend_leaf testHash testAccountHash initState 0 [] ⟨[2, 1, 0]⟩ ⟨[9]⟩ 0 = .ok s2
        ∧ s2.suspendedLeaves (⟨[2, 1, 0]⟩, ⟨[9]⟩) = some 0
        ∧ ∀ now, 0 < now → leaf_suspended_by s2 ⟨[2, 1, 0]⟩ ⟨[9]⟩ now = false :=
  ⟨rfl, by decide,
    suspend_no_lower_bound testHash testAccountHash initState 0 [] ⟨[2, 1, 0]⟩ ⟨[9]⟩ 0
      rfl (by decide)⟩

/-- `create_anchor` and `revoke_anchor` never touch the suspensions map. -/
theorem applyCall_keeps_suspensions (H : List Nat → List Nat)
    (account_id_hash : AccountId → Hashed) (s : PoeState) (k : MerkleRoot × Hashed) :
    (∀ a r bn, (applyCall H account_id_hash s (.createAnchor a r bn)).suspendedLeaves k
        = s.suspendedLeaves k)
    ∧ (∀ snd a r p, (applyCall H account_id_hash s (.revokeAnchor snd a r p)).suspendedLeaves k
        = s.suspendedLeaves k) := by
  constructor
  · intro a r bn
    unfold applyCall callResult create_anchor
    by_cases hx : (s.anchors (a, r)).isSome <;> simp [hx]
  · intro snd a r p
    unfold applyCall callResult revoke_anchor
    by_cases hrev : s.anchors (a, r) = some .Revoked
    · simp [hrev]
    · by_cases hv : verify_proof H a p (account_id_hash snd) = true <;> simp [hrev, hv]

/-- Claim C4: per-key monotonicity of the suspensions map.  A successful
`suspend_leaf` over an existing record stores a strictly larger timestamp; a
less-or-equal timestamp fails with `SuspensionNotExtended`; no call ever
deletes or decreases a record; once the stored value is the maximum u64
timestamp (`2^64 - 1`), every further `suspend_leaf` on that key (with a u64
`suspend_end`) fails. -/
theorem suspension_monotonic (H : List Nat → List Nat)
    (account_id_hash : AccountId → Hashed) (s : PoeState) (sender : AccountId)
    (admins : MerkleRoot) (leaf : Hashed) (proof : List ProofElement)
    (suspend_end curr : Nat) :
    (s.suspendedLeaves (admins, leaf) = some curr →
      (∀ s2, suspend_leaf H account_id_hash s sender proof admins leaf suspend_end = .ok s2 →
        curr < suspend_end ∧ s2.suspendedLeaves (admins, leaf) = some suspend_end)
      ∧ (suspend_end ≤ curr →
          suspend_leaf H account_id_hash s sender proof admins leaf suspend_end
            = .error .suspensionNotExtended))
    ∧ (∀ (c : Call) (k : MerkleRoot × Hashed) (v : Nat),
        s.suspendedLeaves k = some v →
        ∃ v2, (applyCall H account_id_hash s c).suspendedLeaves k = some v2 ∧ v ≤ v2)
    ∧ (s.suspendedLeaves (admins, leaf) = some (2 ^ 64 - 1) → suspend_end < 2 ^ 64 →
        suspend_leaf H account_id_hash s sender proof admins leaf suspend_end
          = .error .suspensionNotExtended) := by
  refine ⟨?_, ?_, ?_⟩
  · intro hcurr
    constructor
    · intro s2 h
      have hok := suspend_leaf_ok H account_id_hash s sender proof admins leaf suspend_end s2 h
      exact ⟨hok.2.2.2.1 curr hcurr, hok.1⟩
    · intro hle
      have hngt : ¬ suspend_end > curr := by omega
      simp [suspend_leaf, hcurr, hngt]
  · intro c k v hk
    cases c with
    | createAnchor a r bn =>
      exact ⟨v, by rw [(applyCall_keeps_suspensions H account_id_hash s k).1 a r bn, hk],
        le_refl v⟩
    | revokeAnchor snd a r p =>
      exact ⟨v, by rw [(applyCall_keeps_suspensions H account_id_hash s k).2 snd a r p, hk],
        le_refl v⟩
    | suspendLeaf snd p a l se =>
      cases hres : suspend_leaf H account_id_hash s snd p a l se with
      | error e =>
        refine ⟨v, ?_, le_refl v⟩
        simp only [applyCall, callResult]
        rw [hres, hk]
      | ok s2 =>
        have hok := suspend_leaf_ok H account_id_hash s snd p a l se s2 hres
        by_cases hkey : k = (a, l)
        · subst hkey
          refine ⟨se, ?_, le_of_lt (hok.2.2.2.1 v hk)⟩
          simp only [applyCall, callResult]
          rw [hres]
          exact hok.1
        · refine ⟨v, ?_, le_refl v⟩
          simp only [applyCall, callResult]
          rw [hres]
          rw [hok.2.1 k hkey, hk]
  · intro hmax hlt
    simp only [suspend_leaf, hmax]
    have hngt : ¬ suspend_end > 2 ^ 64 - 1 := by omega
    rw [if_neg hngt]

/-- A concrete store with the suspension record `(⟨[2,1,0]⟩, ⟨[5]⟩) ↦ 5`,
under the admin root for which account 0's empty proof verifies. -/
def monoState : PoeState where
  anchors := fun _ => none
  suspendedLeaves := fun k => if k = (⟨[2, 1, 0]⟩, ⟨[5]⟩) then some 5 else none

/-- A concrete store whose suspension record holds the maximum u64 timestamp. -/
def maxState : PoeState where
  anchors := fun _ => none
  suspendedLeaves := fun k => if k = (⟨[2, 1, 0]⟩, ⟨[5]⟩) then some (2 ^ 64 - 1) else none

/-- Closed instance of `suspension_monotonic`: over the stored record `5`,
extending to 7 succeeds and stores 7; extending to 3 fails with
`SuspensionNotExtended`; a suspension call never decreases the record; and a
stored `2^64 - 1` blocks the further u64 extension 7. -/
theorem suspension_monotonic_witness :
    (5 < 7 ∧ (applyCall testHash testAccountHash monoState
        (.suspendLeaf 0 [] ⟨[2, 1, 0]⟩ ⟨[5]⟩ 7)).suspendedLeaves (⟨[2, 1, 0]⟩, ⟨[5]⟩)
        = some 7)
    ∧ suspend_leaf testHash testAccountHash monoState 0 [] ⟨[2, 1, 0]⟩ ⟨[5]⟩ 3
        = .error .suspensionNotExtended
    ∧ (∃ v2, (applyCall testHash testAccountHash monoState
        (.suspendLeaf 0 [] ⟨[2, 1, 0]⟩ ⟨[5]⟩ 7)).suspendedLeaves (⟨[2, 1, 0]⟩, ⟨[5]⟩)
        = some v2 ∧ 5 ≤ v2)
    ∧ suspend_leaf testHash testAccountHash maxState 0 [] ⟨[2, 1, 0]⟩ ⟨[5]⟩ 7
        = .error .suspensionNotExtended :=
  ⟨((suspension_monotonic testHash testAccountHash monoState 0 ⟨[2, 1, 0]⟩ ⟨[5]⟩ [] 7 5).1
      rfl).1 _ rfl,
   ((suspension_monotonic testHash testAccountHash monoState 0 ⟨[2, 1, 0]⟩ ⟨[5]⟩ [] 3 5).1
      rfl).2 (by decide),
   (suspension_monotonic testHash testAccountHash monoState 0 ⟨[2, 1, 0]⟩ ⟨[5]⟩ [] 7 5).2.1
      (.suspendLeaf 0 [] ⟨[2, 1, 0]⟩ ⟨[5]⟩ 7) (⟨[2, 1, 0]⟩, ⟨[5]⟩) 5 rfl,
   (suspension_monotonic testHash testAccountHash maxState 0 ⟨[2, 1, 0]⟩ ⟨[5]⟩ [] 7
      (2 ^ 64 - 1)).2.2 rfl (by decide)⟩

/-- A `Revoked` anchor record survives any single call. -/
theorem applyCall_preserves_revoked (H : List Nat → List Nat)
    (account_id_hash : AccountId → Hashed) (s : PoeState)
    (k : MerkleRoot × MerkleRoot) (c : Call)
    (h : s.anchors k = some .Revoked) :
    (applyCall H account_id_hash s c).anchors k = some .Revoked := by
  cases c with
  | createAnchor a r bn =>
    unfold applyCall callResult create_anchor
    by_cases hx : (s.anchors (a, r)).isSome
    · simpa [hx] using h
    · simp only [hx, Bool.false_eq_true, if_false, reduceIte]
      by_cases hk : k = (a, r)
      · subst hk
        rw [h] at hx
        simp at hx
      · simpa [hk] using h
  | revokeAnchor snd a r p =>
    unfold applyCall callResult revoke_anchor
    by_cases hrev : s.anchors (a, r) = some .Revoked
    · simpa [hrev] using h
    · by_cases hv : verify_proof H a p (account_id_hash snd) = true
      · simp only [hrev, hv, if_true, if_false, reduceIte]
        by_cases hk : k = (a, r)
        · simp [hk]
        · simpa [hk] using h
      · simpa [hrev, hv] using h
  | suspendLeaf snd p a l se =>
    cases hres : suspend_leaf H account_id_hash s snd p a l se with
    | error e =>
      simp only [applyCall, callResult]
      rw [hres]
      exact h
    | ok s2 =>
      simp only [applyCall, callResult]
      rw [hres]
      rw [(suspend_leaf_ok H account_id_hash s snd p a l se s2 hres).2.2.1]
      exact h

/-- Claim C5: once the anchors map holds `Revoked` at a key, it still holds
`Revoked` there after any further sequence of `create_anchor`, `revoke_anchor`
and `suspend_leaf` calls — no transition back to `NotRevoked` and no deletion. -/
theorem revoked_is_permanent (H : List Nat → List Nat)
    (account_id_hash : AccountId → Hashed) (s : PoeState)
    (k : MerkleRoot × MerkleRoot)
    (h : s.anchors k = some .Revoked) (cs : List Call) :
    (applyCalls H account_id_hash s cs).anchors k = some .Revoked := by
  induction cs generalizing s with
  | nil => exact h
  | cons c t ih =>
    exact ih (applyCall H account_id_hash s c)
      (applyCall_preserves_revoked H account_id_hash s k c h)

/-- Closed instance of `revoked_is_permanent`: the `Revoked` record of
`cexState` survives a create, a revoke and a suspension. -/
theorem revoked_is_permanent_witness :
    cexState.anchors (⟨[3]⟩, ⟨[4]⟩) = some .Revoked
    ∧ (applyCalls testHash testAccountHash cexState
        [.createAnchor ⟨[3]⟩ ⟨[4]⟩ 1, .revokeAnchor 0 ⟨[3]⟩ ⟨[4]⟩ [],
         .suspendLeaf 0 [] ⟨[3]⟩ ⟨[5]⟩ 9]).anchors (⟨[3]⟩, ⟨[4]⟩) = some .Revoked :=
  ⟨rfl, revoked_is_permanent testHash testAccountHash cexState (⟨[3]⟩, ⟨[4]⟩) rfl
    [.createAnchor ⟨[3]⟩ ⟨[4]⟩ 1, .revokeAnchor 0 ⟨[3]⟩ ⟨[4]⟩ [],
     .suspendLeaf 0 [] ⟨[3]⟩ ⟨[5]⟩ 9]⟩

/-- The all-zero 32-byte digest (`[0u8; 32]`), the `Default` of `MerkleRoot`:
a root with no possible leaves. -/
def zeroDigest : Digest := List.replicate 32 0

/-- The Merkle root equal to the all-zero sentinel digest. -/
def zeroRoot : MerkleRoot := ⟨zeroDigest⟩

/-- The fold inside `verify_proof` always ends on an output of the hash. -/
theorem fold_in_range (H : List Nat → List Nat) (proof : List ProofElement)
    (a : Digest) (ha : ∃ x, a = H x) :
    ∃ x, proof.foldl (fun leaf pe => pe.merge H leaf) a = H x := by
  induction proof generalizing a with
  | nil => exact ha
  | cons e t ih =>
    apply ih
    cases e with
    | Left h2 => exact ⟨h2 ++ a, rfl⟩
    | Right h2 => exact ⟨a ++ h2, rfl⟩

/-- If no preimage hashes to the all-zero digest, no proof verifies against the
sentinel root. -/
theorem verify_zero_false (H : List Nat → List Nat) (hz : ∀ l, H l ≠ zeroDigest)
    (proof : List ProofElement) (leaf : Hashed) :
    verify_proof H zeroRoot proof leaf = false := by
  obtain ⟨x, hx⟩ := fold_in_range H proof (H leaf.hash) ⟨leaf.hash, rfl⟩
  have hne : proof.foldl (fun leaf pe => pe.merge H leaf) (H leaf.hash) ≠ zeroRoot.hash := by
    rw [hx]
    exact hz x
  simp [verify_proof, hne]

/-- Invariant of reachable stores when nothing hashes to all-zero: no anchor
scoped to the sentinel root is `Revoked`, and no suspension record exists
under the sentinel root. -/
def zeroFreeInv (s : PoeState) : Prop :=
  (∀ r, s.anchors (zeroRoot, r) ≠ some .Revoked)
  ∧ (∀ l, s.suspendedLeaves (zeroRoot, l) = none)

theorem zeroFreeInv_step (H : List Nat → List Nat) (account_id_hash : AccountId → Hashed)
    (hz : ∀ l, H l ≠ zeroDigest) (s : PoeState) (hs : zeroFreeInv s) (c : Call) :
    zeroFreeInv (applyCall H account_id_hash s c) := by
  cases c with
  | createAnchor a r bn =>
    simp only [applyCall, callResult, create_anchor]
    by_cases hx : (s.anchors (a, r)).isSome
    · simpa [hx] using hs
    · simp only [hx, Bool.false_eq_true, if_false, reduceIte]
      refine ⟨?_, hs.2⟩
      intro r0
      by_cases hk : ((zeroRoot, r0) : MerkleRoot × MerkleRoot) = (a, r)
      · simp [hk]
      · simpa [hk] using hs.1 r0
  | revokeAnchor snd a r p =>
    simp only [applyCall, callResult, revoke_anchor]
    by_cases hrev : s.anchors (a, r) = some .Revoked
    · simpa [hrev] using hs
    · by_cases ha : a = zeroRoot
      · subst ha
        simp [hrev, verify_zero_false H hz p (account_id_hash snd)]
        exact hs
      · by_cases hv : verify_proof H a p (account_id_hash snd) = true
        · simp only [hrev, hv, if_true, if_false, reduceIte]
          refine ⟨?_, hs.2⟩
          intro r0
          have hk : ((zeroRoot, r0) : MerkleRoot × MerkleRoot) ≠ (a, r) := by
            intro hcontra
            exact ha (Prod.mk.injEq .. ▸ hcontra).1.symm
          simpa [hk] using hs.1 r0
        · simpa [hrev, hv] using hs
  | suspendLeaf snd p a l se =>
    by_cases ha : a = zeroRoot
    · subst ha
      simp only [applyCall, callResult, suspend_leaf, hs.2 l,
        verify_zero_false H hz p (account_id_hash snd)]
      simpa using hs
    · cases hres : suspend_leaf H account_id_hash s snd p a l se with
      | error e =>
        simp only [applyCall, callResult]
        rw [hres]
        exact hs
      | ok s2 =>
        have hok := suspend_leaf_ok H account_id_hash s snd p a l se s2 hres
        simp only [applyCall, callResult]
        rw [hres]
        constructor
        · intro r0
          rw [hok.2.2.1]
          exact hs.1 r0
        · intro l0
          have hk : ((zeroRoot, l0) : MerkleRoot × Hashed) ≠ (a, l) := by
            intro hcontra
            exact ha (Prod.mk.injEq .. ▸ hcontra).1.symm
          rw [hok.2.1 _ hk]
          exact hs.2 l0

theorem zeroFreeInv_reachable (H : List Nat → List Nat)
    (account_id_hash : AccountId → Hashed) (hz : ∀ l, H l ≠ zeroDigest)
    (s : PoeState) (hs : zeroFreeInv s) (cs : List Call) :
    zeroFreeInv (applyCalls H account_id_hash s cs) := by
  induction cs generalizing s with
  | nil => exact hs
  | cons c t ih =>
    exact ih (applyCall H account_id_hash s c)
      (zeroFreeInv_step H account_id_hash hz s hs c)

/-- Claim C7: assuming no preimage hashes to the all-zero digest, then in every
store reachable from genesis, `revoke_anchor` and `suspend_leaf` with the
sentinel admin root fail with `InvalidProof` for every caller and every proof
(the empty proof included, as no proof verifies against the sentinel): anchors
scoped to the sentinel are irrevocable and no leaf can be suspended under it. -/
theorem zero_root_invalid_proof (H : List Nat → List Nat)
    (account_id_hash : AccountId → Hashed) (hz : ∀ l, H l ≠ zeroDigest)
    (cs : List Call) (s : PoeState)
    (hs : s = applyCalls H account_id_hash initState cs) :
    ∀ (sender : AccountId) (proof : List ProofElement) (root : MerkleRoot)
      (leaf docLeaf : Hashed) (suspend_end : Nat),
      verify_proof H zeroRoot proof leaf = false
      ∧ revoke_anchor H account_id_hash s sender zeroRoot root proof
          = .error .invalidProof
      ∧ suspend_leaf H account_id_hash s sender proof zeroRoot docLeaf suspend_end
          = .error .invalidProof := by
  intro sender proof root leaf docLeaf suspend_end
  have hinv : zeroFreeInv s := by
    rw [hs]
    refine zeroFreeInv_reachable H account_id_hash hz initState ⟨?_, ?_⟩ cs
    · intro r
      simp [initState]
    · intro l
      simp [initState]
  refine ⟨verify_zero_false H hz proof leaf, ?_, ?_⟩
  · simp [revoke_anchor, hinv.1 root,
      verify_zero_false H hz proof (account_id_hash sender)]
  · simp [suspend_leaf, hinv.2 docLeaf,
      verify_zero_false H hz proof (account_id_hash sender)]

theorem testHash_ne_zero : ∀ l, testHash l ≠ zeroDigest := by
  intro l h
  rw [show zeroDigest = 0 :: List.replicate 31 0 from rfl] at h
  injection h with h1 h2
  subst h2
  simp at h1

/-- Closed instance of `zero_root_invalid_proof` in the store reached by
anchoring a document under the sentinel root: revoking that anchor, or
suspending a leaf under the sentinel, fails with `InvalidProof` on the empty
proof. -/
theorem zero_root_invalid_proof_witness :
    verify_proof testHash zeroRoot [] (testAccountHash 0) = false
    ∧ revoke_anchor testHash testAccountHash
        (applyCalls testHash testAccountHash initState [.createAnchor zeroRoot ⟨[4]⟩ 1])
        0 zeroRoot ⟨[4]⟩ [] = .error .invalidProof
    ∧ suspend_leaf testHash testAccountHash
        (applyCalls testHash testAccountHash initState [.createAnchor zeroRoot ⟨[4]⟩ 1])
        0 [] zeroRoot ⟨[5]⟩ 9 = .error .invalidProof := by
  have h := zero_root_invalid_proof testHash testAccountHash testHash_ne_zero
    [.createAnchor zeroRoot ⟨[4]⟩ 1]
    (applyCalls testHash testAccountHash initState [.createAnchor zeroRoot ⟨[4]⟩ 1]) rfl
    0 [] ⟨[4]⟩ (testAccountHash 0) ⟨[5]⟩ 9
  exact h

/-- The fold inside `verify_proof`, named for reasoning about proof prefixes:
the verifier's accumulator after consuming `l` starting from `a`. -/
def fold_digest (H : List Nat → List Nat) (a : Digest) (l : List ProofElement) : Digest :=
  l.foldl (fun leaf pe => pe.merge H leaf) a

theorem verify_proof_fold (H : List Nat → List Nat) (root : MerkleRoot)
    (proof : List ProofElement) (leaf : Hashed) :
    verify_proof H root proof leaf
      = decide (fold_digest H (H leaf.hash) proof = root.hash) := rfl

/-- The sibling digest carried by a proof element. -/
def sibling : ProofElement → Digest
  | .Left h => h
  | .Right h => h

/-- Replace the sibling digest of a proof element, keeping its side. -/
def withSibling : ProofElement → Digest → ProofElement
  | .Left _, d => .Left d
  | .Right _, d => .Right d

/-- Flip the Left/Right tag of a proof element, keeping its sibling digest. -/
def flipElem : ProofElement → ProofElement
  | .Left h => .Right h
  | .Right h => .Left h

/-- With an injective hash, `merge` is injective in the accumulator. -/
theorem merge_ne (H : List Nat → List Nat) (hInj : ∀ a b : List Nat, H a = H b → a = b)
    (e : ProofElement) {a b : Digest} (h : a ≠ b) : e.merge H a ≠ e.merge H b := by
  cases e with
  | Left s =>
    intro hh
    exact h (List.append_cancel_left (hInj _ _ hh))
  | Right s =>
    intro hh
    exact h (List.append_cancel_right (hInj _ _ hh))

/-- With an injective hash, distinct accumulators stay distinct through the
rest of the fold. -/
theorem fold_digest_ne (H : List Nat → List Nat)
    (hInj : ∀ a b : List Nat, H a = H b → a = b) (l : List ProofElement)
    {a b : Digest} (h : a ≠ b) : fold_digest H a l ≠ fold_digest H b l := by
  induction l generalizing a b with
  | nil => exact h
  | cons e t ih => exact ih (merge_ne H hInj e h)

theorem fold_digest_append (H : List Nat → List Nat) (a : Digest)
    (l1 l2 : List ProofElement) :
    fold_digest H a (l1 ++ l2) = fold_digest H (fold_digest H a l1) l2 := by
  simp [fold_digest]

/-- Two equal-length lists that commute under append are equal. -/
theorem append_eq_of_comm {s a : List Nat} (hlen : s.length = a.length)
    (h : s ++ a = a ++ s) : s = a := by
  have h1 : (s ++ a).take s.length = s := List.take_left s a
  have h2 : (a ++ s).take s.length = a := by
    rw [hlen]
    exact List.take_left a s
  rw [h, h2] at h1
  exact h1.symm

/-- Claim C8 counterexample: a depth-1 proof whose sibling digest equals the
verifier's accumulator (the double-hashed leaf digest) verifies both as
`Left` and as `Right` — flipping the tag hashes the same concatenation, so
flipping a tag of a valid proof does not always make verification fail.  This
holds for every hash function; `testHash` here is injective. -/
theorem tag_flip_cex :
    verify_proof testHash ⟨testHash ([1, 5] ++ [1, 5])⟩ [.Left [1, 5]] ⟨[5]⟩ = true
    ∧ verify_proof testHash ⟨testHash ([1, 5] ++ [1, 5])⟩ [.Right [1, 5]] ⟨[5]⟩ = true := by
  constructor <;> decide

/-- Claim C8 (amended): assume the hash is collision-free (injective on
preimages).  For every valid proof of depth ≥ 1, written `p1 ++ e :: p2`:
replacing `e`'s sibling digest with any different digest (in particular,
changing any single byte of it) makes verification fail; and flipping `e`'s
Left/Right tag makes verification fail provided `e`'s sibling digest differs
from the verifier's accumulator after `p1` (they have equal length for
fixed-width digests) — if sibling and accumulator coincide, the flipped proof
still verifies, as the counterexample above shows. -/
theorem proof_mutation_fails (H : List Nat → List Nat)
    (hInj : ∀ a b : List Nat, H a = H b → a = b)
    (root : MerkleRoot) (leaf : Hashed) (p1 p2 : List ProofElement) (e : ProofElement)
    (hv : verify_proof H root (p1 ++ e :: p2) leaf = true) :
    (∀ d : Digest, d ≠ sibling e →
       verify_proof H root (p1 ++ withSibling e d :: p2) leaf = false)
    ∧ ((sibling e).length = (fold_digest H (H leaf.hash) p1).length →
       sibling e ≠ fold_digest H (H leaf.hash) p1 →
       verify_proof H root (p1 ++ flipElem e :: p2) leaf = false) := by
  rw [verify_proof_fold] at hv
  have hv2 : fold_digest H (H leaf.hash) (p1 ++ e :: p2) = root.hash :=
    of_decide_eq_true hv
  have hsplit : ∀ x : ProofElement, fold_digest H (H leaf.hash) (p1 ++ x :: p2)
      = fold_digest H (x.merge H (fold_digest H (H leaf.hash) p1)) p2 := by
    intro x
    rw [fold_digest_append]
    rfl
  rw [hsplit e] at hv2
  constructor
  · intro d hd
    rw [verify_proof_fold]
    apply decide_eq_false
    rw [hsplit (withSibling e d), ← hv2]
    apply fold_digest_ne H hInj
    cases e with
    | Left s =>
      intro hh
      exact hd (List.append_cancel_right (hInj _ _ hh))
    | Right s =>
      intro hh
      exact hd (List.append_cancel_left (hInj _ _ hh))
  · intro hlen hne
    rw [verify_proof_fold]
    apply decide_eq_false
    rw [hsplit (flipElem e), ← hv2]
    apply fold_digest_ne H hInj
    cases e with
    | Left s =>
      intro hh
      exact hne (append_eq_of_comm hlen (hInj _ _ hh).symm)
    | Right s =>
      intro hh
      exact hne (append_eq_of_comm hlen (hInj _ _ hh))

/-- Closed instance of `proof_mutation_fails`: for the valid depth-1 proof
`[Left [9, 9]]` of leaf `[5]` (accumulator `testHash [5] = [1, 5]`), replacing
the sibling by `[9, 8]` (a one-byte change) and flipping the tag both make
verification fail. -/
theorem proof_mutation_fails_witness :
    verify_proof testHash ⟨[4, 9, 9, 1, 5]⟩ [.Left [9, 9]] ⟨[5]⟩ = true
    ∧ verify_proof testHash ⟨[4, 9, 9, 1, 5]⟩ [.Left [9, 8]] ⟨[5]⟩ = false
    ∧ verify_proof testHash ⟨[4, 9, 9, 1, 5]⟩ [.Right [9, 9]] ⟨[5]⟩ = false :=
  ⟨by decide,
   (proof_mutation_fails testHash testHash_injective ⟨[4, 9, 9, 1, 5]⟩ ⟨[5]⟩ [] []
      (.Left [9, 9]) (by decide)).1 [9, 8] (by decide),
   (proof_mutation_fails testHash testHash_injective ⟨[4, 9, 9, 1, 5]⟩ ⟨[5]⟩ [] []
      (.Left [9, 9]) (by decide)).2 (by decide) (by decide)⟩
